import Mathlib

/-!
Verification of the snippet-checker repository's output-normalisation core.

Strings are modelled as `List Char` (`Str`).  Python's `re.sub` for each of
the concrete patterns in `src/snippet_checker/output.py`, and Python's
`str.replace`, are embedded as an executable left-to-right scanner
(`reSub`) parameterised by a match function: at each position the scanner
either emits the replacement for the leftmost match and continues after the
consumed text, or keeps one character and moves on.  All definitions are
executable; recursion that consumes a data-dependent amount of input is
driven by a fuel argument bounded by the input length, with a
fuel-irrelevance lemma.
-/

abbrev Str := List Char

/-- Boolean prefix test on `List Char` (same recursion as Python's
internal comparison of a literal against the scan position). -/
def isPre : Str → Str → Bool
  | [], _ => true
  | _ :: _, [] => false
  | a :: as, b :: bs => a == b && isPre as bs

/-- Boolean substring test: `isSub pat s` is true iff `pat` occurs
contiguously inside `s`. -/
def isSub (pat : Str) : Str → Bool
  | [] => isPre pat []
  | c :: cs => isPre pat (c :: cs) || isSub pat cs

/-- One step of a regex-substitution scan.  `m s` returns
`some (replacement, rest)` when the pattern matches at the head of `s`
(`rest` is the suffix after the consumed match), `none` otherwise. -/
def subAllG (m : Str → Option (Str × Str)) : Nat → Str → Str
  | 0, s => s
  | _ + 1, [] => []
  | f + 1, c :: cs =>
      match m (c :: cs) with
      | some (r, rest) => r ++ subAllG m f rest
      | none => c :: subAllG m f cs

/-- `re.sub`-style scan over a whole string: replace every leftmost,
non-overlapping match, scanning left to right. -/
def reSub (m : Str → Option (Str × Str)) (s : Str) : Str :=
  subAllG m s.length s

/-- Match function of Python's `str.replace(pat, rep)`: a match is simply
the literal `pat` at the current position.  (Never used with `pat = []`.) -/
def replMatch (pat rep : Str) (s : Str) : Option (Str × Str) :=
  if isPre pat s then some (rep, s.drop pat.length) else none

/-- Python `s.replace(pat, rep)`: replace all non-overlapping occurrences
left to right, never rescanning replacement text. -/
def strReplace (s pat rep : Str) : Str :=
  reSub (replMatch pat rep) s

/-- A matcher `m` "consumes" when every match strictly shortens the string. -/
def Consumes (m : Str → Option (Str × Str)) : Prop :=
  ∀ s p, m s = some p → p.2.length < s.length


/-! ## Timed-output builder (`Output._to_string`, src/snippet_checker/output.py lines 17-27)

Chunks are `(elapsed-seconds, decoded text)` pairs; elapsed times are
modelled as rationals (the Python floats in the claims, 0.0 and 1.0, are
exactly representable).  `round` is Python's round-half-to-even. -/

/-- Python's `round` on a rational: nearest integer, ties to even.  The
fractional part `q - ⌊q⌋` is compared with `1/2` by cross-multiplying
with the (positive) denominator, keeping everything in integer
arithmetic. -/
def pythonRound (q : ℚ) : ℤ :=
  let f := q.floor
  let frac2 := 2 * (q.num - f * (q.den : ℤ))
  if frac2 < (q.den : ℤ) then f
  else if (q.den : ℤ) < frac2 then f + 1
  else if f % 2 = 0 then f else f + 1

/-- Decimal digit character. -/
def digitChar (n : ℕ) : Char := Char.ofNat (48 + n)

/-- Decimal digits of `n` (fuelled; fuel `n+1` always suffices). -/
def natDecAux : ℕ → ℕ → Str
  | 0, _ => []
  | f + 1, n => if n < 10 then [digitChar n] else natDecAux f (n / 10) ++ [digitChar (n % 10)]

/-- Python `str(n)` for a natural number. -/
def natDec (n : ℕ) : Str := natDecAux (n + 1) n

/-- Python `str(i)` for an integer. -/
def intDec (i : ℤ) : Str := if i < 0 then '-' :: natDec i.natAbs else natDec i.natAbs

/-- Lower-case hex digit character, as used by Python's `hex`. -/
def hexDigitChar (n : ℕ) : Char := if n < 10 then Char.ofNat (48 + n) else Char.ofNat (87 + n)

/-- Hex digits of `n` (fuelled). -/
def natHexAux : ℕ → ℕ → Str
  | 0, _ => []
  | f + 1, n => if n < 16 then [hexDigitChar n] else natHexAux f (n / 16) ++ [hexDigitChar (n % 16)]

/-- Python `hex(n)` for a natural number: `0x` plus lower-case hex digits. -/
def pyHex (n : ℕ) : Str := '0' :: 'x' :: natHexAux (n + 1) n

namespace Output

/-- The gap marker literal `f"<~{rounded_delta}s>\n"`. -/
def gapMarker (rd : ℤ) : Str := '<' :: '~' :: (intDec rd ++ ['s', '>', '\n'])

/-- `Output._to_string`: concatenate chunk texts, inserting a gap marker
before any chunk whose rounded elapsed time is non-zero, then normalise
`\r\n` to `\n`. -/
def to_string (logs : List (ℚ × Str)) : Str :=
  strReplace
    (logs.foldl
      (fun acc dc =>
        let rounded_delta := pythonRound dc.1
        if rounded_delta = 0 then acc ++ dc.2
        else acc ++ gapMarker rounded_delta ++ dc.2)
      [])
    ['\r', '\n'] ['\n']

end Output

/-! ## Character classes for the regexes in output.py.

Python's `re` uses Unicode classes; the inputs the claims touch are
ASCII, and these embeddings model the ASCII fragment of `\s`, `\w`
and `[0-9A-Fa-f]`. -/

/-- ASCII fragment of the regex class `\s`. -/
def isPySpace (c : Char) : Bool :=
  c == ' ' || c == '\t' || c == '\n' || c == '\r' || c == Char.ofNat 11 || c == Char.ofNat 12

/-- ASCII fragment of the regex class `\w` (used for `\b` boundaries). -/
def isWordChar (c : Char) : Bool := c.isAlphanum || c == '_'

/-- The regex class `[0-9A-Fa-f]`. -/
def isHexDig (c : Char) : Bool := c.isDigit || ('a' ≤ c && c ≤ 'f') || ('A' ≤ c && c ≤ 'F')

/-- True when a match may end here: end of string or a non-word character
(the trailing `\b` of the address pattern). -/
def nonWordAt : Str → Bool
  | [] => true
  | d :: _ => !isWordChar d

/-- `re.finditer(r"\b0x[0-9A-Fa-f]+\b", s)`: the list of matched address
literals, leftmost first, non-overlapping.  `prevWord` says whether the
character before the current position is a word character (for `\b`).
Backtracking never helps this pattern: a shortened digit run still ends in
a word character, so a match exists iff the maximal run is word-bounded. -/
def scanAddrs : ℕ → Bool → Str → List Str
  | 0, _, _ => []
  | _ + 1, _, [] => []
  | f + 1, prevWord, c :: cs =>
    if !prevWord && c == '0' then
      match cs with
      | 'x' :: rest =>
        let run := rest.takeWhile isHexDig
        let after := rest.drop run.length
        if !run.isEmpty && nonWordAt after then
          ('0' :: 'x' :: run) :: scanAddrs f true after
        else
          scanAddrs f (isWordChar c) cs
      | _ => scanAddrs f (isWordChar c) cs
    else
      scanAddrs f (isWordChar c) cs

/-- The loop body of `normalise_memory_addresses`: walk the matches,
keeping a `seen` set; each first-seen address is replaced (everywhere in
the current string, by plain `str.replace`) with the next synthetic
address `hex(0x100)`, `hex(0x200)`, ... -/
def applyAddrs : List Str → List Str → ℕ → Str → Str
  | [], _, _, cur => cur
  | a :: rest, seen, k, cur =>
    if seen.contains a then applyAddrs rest seen k cur
    else applyAddrs rest (a :: seen) (k + 1) (strReplace cur a (pyHex (256 * (k + 1))))

namespace PythonOutput

/-- `PythonOutput.normalise_memory_addresses` (output.py lines 48-60). -/
def normalise_memory_addresses (output : Str) : Str :=
  applyAddrs (scanAddrs (output.length + 1) false output) [] 0 output

/-- The literal head of `traceback_except_for_last_line`. -/
def tbHeader : Str := "Traceback (most recent call last):\n".toList

/-- One iteration of `(\s.*\n)+`: a whitespace character, then the rest of
the line up to and including the next `\n`.  Returns the remaining suffix. -/
def wsChunk : Str → Option Str
  | [] => none
  | c :: cs =>
    if isPySpace c then
      match cs.dropWhile (fun x => !(x == '\n')) with
      | _ :: r => some r
      | [] => none
    else none

/-- Greedy repetition of `wsChunk` (fuelled; each step consumes ≥ 2 chars). -/
def eatWs : ℕ → Str → Str
  | 0, t => t
  | f + 1, t =>
    match wsChunk t with
    | some t' => eatWs f t'
    | none => t

/-- Match function of `traceback_except_for_last_line` at the current
position, with substitution text `rep`. -/
def tbMatchAt (rep : Str) (s : Str) : Option (Str × Str) :=
  if isPre tbHeader s then
    match wsChunk (s.drop tbHeader.length) with
    | some r1 => some (rep, eatWs r1.length r1)
    | none => none
  else none

/-- The verbosity-1 replacement text. -/
def tbEllipsis : Str := "Traceback (most recent call last):\n  ...\n".toList

/-- `PythonOutput.normalise_traceback` (output.py lines 62-71).  The
Python `if/elif/elif` has no final `else`; for a verbosity outside
`{0,1,2}` the local `normalised` is unbound and the call raises
`UnboundLocalError`, modelled as `none`. -/
def normalise_traceback (output : Str) (output_verbosity : ℤ) : Option Str :=
  if output_verbosity = 0 then some (reSub (tbMatchAt []) output)
  else if output_verbosity = 1 then some (reSub (tbMatchAt tbEllipsis) output)
  else if output_verbosity = 2 then some output
  else none

/-- The literal head of the `location_info` pattern. -/
def locLit : Str := "  File \"<string>\", line".toList

/-- Match function of `location_info` = `'  File "<string>", line.*\n'`. -/
def locMatchAt (s : Str) : Option (Str × Str) :=
  if isPre locLit s then
    match (s.drop locLit.length).dropWhile (fun x => !(x == '\n')) with
    | _ :: r => some ([], r)
    | [] => none
  else none

/-- `PythonOutput.normalise_location_info` (output.py lines 73-76). -/
def normalise_location_info (output : Str) : Str := reSub locMatchAt output

/-- `PythonOutput.normalise` (output.py lines 40-46): memory addresses,
then traceback (may raise, hence `Option`), then location info. -/
def normalise (output : Str) (output_verbosity : ℤ) : Option Str :=
  (normalise_traceback (normalise_memory_addresses output) output_verbosity).map
    normalise_location_info

end PythonOutput

namespace GoOutput

/-- `GoOutput.normalise_memory_addresses` (output.py lines 96-108); the
source duplicates `PythonOutput`'s body verbatim. -/
def normalise_memory_addresses (output : Str) : Str :=
  PythonOutput.normalise_memory_addresses output

/-- The literal head of the `panic` pattern. -/
def panicLit : Str := "panic: ".toList

/-- Match function of `(panic: .*?\n).*` with `re.DOTALL`: at the current
position the literal must match and a `\n` must follow somewhere (the lazy
`.*?` stops at the first one); the trailing `.*` then consumes everything,
so the remainder after the match is empty and the substitution `\1` keeps
only the text through that first newline. -/
def panicMatchAt (s : Str) : Option (Str × Str) :=
  if isPre panicLit s && (s.drop panicLit.length).contains '\n' then
    some (panicLit ++ (s.drop panicLit.length).takeWhile (fun c => !(c == '\n')) ++ ['\n'], [])
  else none

/-- `GoOutput.normalise_panic` (output.py lines 118-121). -/
def normalise_panic (output : Str) : Str := reSub panicMatchAt output

/-- Literal pieces of the `stack_overflow` pattern. -/
def soLit1 : Str := "runtime: goroutine stack exceeds".toList

def soLit2 : Str := "limit\n".toList

def soLit3 : Str := "runtime:".toList

def soLit4 : Str := "fatal error: stack overflow\n".toList

/-- Can `.*limit\nruntime:.*\nfatal error: stack overflow\n.*` (all `.`
with `re.DOTALL`) match the given suffix?  The trailing `.*` swallows the
rest, so only existence of a decomposition matters; the replacement `\1`
is the fixed literal `soLit4` either way. -/
def soPart2 : Str → Bool
  | [] => false
  | c :: cs =>
    (isPre soLit2 (c :: cs) &&
      isPre soLit3 ((c :: cs).drop soLit2.length) &&
      isSub ('\n' :: soLit4) (((c :: cs).drop soLit2.length).drop soLit3.length)) ||
    soPart2 cs

/-- Match function of the `stack_overflow` pattern at the current position. -/
def soMatchAt (s : Str) : Option (Str × Str) :=
  if isPre soLit1 s && soPart2 (s.drop soLit1.length) then some (soLit4, []) else none

/-- `GoOutput.normalise_stack_overflow` (output.py lines 123-126). -/
def normalise_stack_overflow (output : Str) : Str := reSub soMatchAt output

/-- `GoOutput.normalise` (output.py lines 110-116): memory addresses, then
panic truncation, then stack-overflow truncation.  The verbosity parameter
is accepted and ignored. -/
def normalise (output : Str) (output_verbosity : ℤ) : Str :=
  normalise_stack_overflow (normalise_panic (normalise_memory_addresses output))

end GoOutput

namespace NodeOutput

/-- `NodeOutput.normalise` (output.py lines 132-134): returns its input. -/
def normalise (output : Str) (output_verbosity : ℤ) : Str := output

end NodeOutput

namespace RubyOutput

/-- `RubyOutput.normalise` (output.py lines 140-142): returns its input. -/
def normalise (output : Str) (output_verbosity : ℤ) : Str := output

end RubyOutput

namespace RustOutput

/-- `RustOutput.normalise` (output.py lines 148-150): returns its input. -/
def normalise (output : Str) (output_verbosity : ℤ) : Str := output

end RustOutput

/-! ## Questions and the check loop
(src/snippet_checker/question.py, check_snippets.py, cli.py) -/

/-- The language selected by the `image` prefix dispatch in
`Question.__init__` (question.py lines 36-47). -/
inductive Lang where
  | go
  | python
  | node
  | ruby
  | rust
deriving DecidableEq

/-- Dispatch to the language's `normalise`.  Only Python's can raise
(hence `Option`); the others always return. -/
def Lang.normalise : Lang → Str → ℤ → Option Str
  | .python, output, v => PythonOutput.normalise output v
  | .go, output, v => some (GoOutput.normalise output v)
  | .node, output, v => some (NodeOutput.normalise output v)
  | .ruby, output, v => some (RubyOutput.normalise output v)
  | .rust, output, v => some (RustOutput.normalise output v)

/-- A `Question` as far as output checking is concerned: the snippet's raw
execution output, the stored expected output (`given_output`), the
check-output flag and the verbosity (question.py lines 17-49). -/
structure Question where
  id : ℕ
  language : Lang
  raw : Str
  given_output : Str
  check_output : Bool
  output_verbosity : ℤ

/-- `Question.has_ok_output` (question.py lines 51-53): freshly normalise
the snippet's raw output and compare it, with string equality, against the
stored `given_output`; the stored side is not re-normalised. -/
def Question.has_ok_output (q : Question) : Option Bool :=
  (q.language.normalise q.raw q.output_verbosity).map (fun normalised => normalised == q.given_output)

/-- `check_snippets.UserInput` (check_snippets.py lines 7-11). -/
inductive UserInput where
  | REPLACE
  | IGNORE
  | MOVE_ON
  | REVIEW
deriving DecidableEq

/-- `question.Tag` (question.py lines 8-14). -/
inductive Tag where
  | NO_CHECK_FORMAT
  | NO_CHECK_OUTPUT
  | NO_COMPRESS
  | REVIEW
deriving DecidableEq

/-- A persisted-state write performed through the repository:
`repository.fix_output(question)` or `repository.add_tag(question, tag)`. -/
inductive WriteOp where
  | fix_output (id : ℕ)
  | add_tag (id : ℕ) (t : Tag)
deriving DecidableEq

namespace check_snippets

/-- The per-question loop of `check_output` (check_snippets.py lines
38-63).  `interactive` is the SECOND ARGUMENT AS ACTUALLY PASSED by
`cli.app` (cli.py line 34): the mode string `args.mode`, not a boolean;
the Python test `if interactive:` is string truthiness, modelled as
`interactive ≠ ""`.  `responses n` is the user's n-th answer to
`get_user_input` (prompted only on a failure in the truthy branch).
Returns `(writes, failed, fixed, ignored)`; `none` models a Python
exception escaping from `has_ok_output`. -/
def checkLoop (interactive : String) (responses : ℕ → UserInput) :
    List Question → ℕ → Option (List WriteOp × ℕ × ℕ × ℕ)
  | [], _ => some ([], 0, 0, 0)
  | q :: qs, n =>
    match q.has_ok_output with
    | none => none
    | some true => checkLoop interactive responses qs n
    | some false =>
      if interactive ≠ "" then
        match responses n with
        | .REPLACE =>
          (checkLoop interactive responses qs (n + 1)).map
            (fun r => (WriteOp.fix_output q.id :: r.1, r.2.1 + 1, r.2.2.1 + 1, r.2.2.2))
        | .IGNORE =>
          (checkLoop interactive responses qs (n + 1)).map
            (fun r => (WriteOp.add_tag q.id Tag.NO_CHECK_OUTPUT :: r.1, r.2.1 + 1, r.2.2.1, r.2.2.2 + 1))
        | .REVIEW =>
          (checkLoop interactive responses qs (n + 1)).map
            (fun r => (WriteOp.add_tag q.id Tag.REVIEW :: r.1, r.2.1 + 1, r.2.2.1, r.2.2.2))
        | .MOVE_ON =>
          (checkLoop interactive responses qs (n + 1)).map
            (fun r => (r.1, r.2.1 + 1, r.2.2.1, r.2.2.2))
      else
        (checkLoop interactive responses qs n).map
          (fun r => (r.1, r.2.1 + 1, r.2.2.1, r.2.2.2))

/-- `check_snippets.check_output` (check_snippets.py lines 27-77): filter
to the questions with the check-output flag, run the loop, and return the
function's `int` result (1 iff the `failed` list is non-empty — fixed and
ignored questions included) together with the repository writes performed.
Note `cli.app` (cli.py line 34) discards this return value. -/
def check_output (questions : List Question) (interactive : String)
    (responses : ℕ → UserInput) : Option (ℤ × List WriteOp) :=
  (checkLoop interactive responses (questions.filter (·.check_output)) 0).map
    (fun r => (if r.2.1 ≠ 0 then (1 : ℤ) else 0, r.1))

end check_snippets

/-! ## Anki markup escaping (src/snippet_checker/repository.py) -/

def brTag : Str := ['<', 'b', 'r', '>']

def ltEnt : Str := ['&', 'l', 't', ';']

def gtEnt : Str := ['&', 'g', 't', ';']

def nbspEnt : Str := ['&', 'n', 'b', 's', 'p', ';']

def ampEnt : Str := ['&', 'a', 'm', 'p', ';']

def aposChar : Char := Char.ofNat 39

def aposEnt : Str := ['&', 'a', 'p', 'o', 's', ';']

def quotEnt : Str := ['&', 'q', 'u', 'o', 't', ';']

/-- `repository.unescape_html` (repository.py lines 203-220): seven
chained `str.replace` calls, in source order. -/
def unescape_html (html : Str) : Str :=
  strReplace
    (strReplace
      (strReplace
        (strReplace
          (strReplace
            (strReplace
              (strReplace html brTag ['\n'])
              ltEnt ['<'])
            gtEnt ['>'])
          nbspEnt [' '])
        ampEnt ['&'])
      aposEnt [aposChar])
    quotEnt ['"']

/-- `repository.escape_html` (repository.py lines 223-230): escape `&`
then `<` ("order matters"). -/
def escape_html (plain : Str) : Str :=
  strReplace (strReplace plain ['&'] ampEnt) ['<'] ltEnt

/-! ## Characterisation of `escape_html` and the `unescape_html` passes -/

/-- Per-character view of `escape_html`. -/
def escChar (c : Char) : Str :=
  if c == '&' then ampEnt else if c == '<' then ltEnt else [c]

/-- Per-character view of the string after the `&lt;` pass of
`unescape_html`: only `&` is still escaped. -/
def escChar2 (c : Char) : Str :=
  if c == '&' then ampEnt else [c]

/-! ## Concrete inputs used by the claims -/

/-- The Python traceback from the spec's verbosity table and the unit test. -/
def tbInput : Str :=
  ("Traceback (most recent call last):\n" ++
   "  File \"<string>\", line 1, in <module>\n" ++
   "    1 / 0\n" ++
   "    ~~^~~\n" ++
   "ZeroDivisionError: division by zero\n").toList

/-- A question whose check fails: its raw output normalises to `x`, but
the stored expected output is `y`. -/
def qBad : Question :=
  { id := 0, language := .python, raw := "x".toList, given_output := "y".toList,
    check_output := true, output_verbosity := 0 }

/-! ## Engine lemmas -/

theorem isPre_length {pat s : Str} (h : isPre pat s = true) : pat.length ≤ s.length := by
  induction pat generalizing s with
  | nil => simp
  | cons a as ih =>
    cases s with
    | nil => simp [isPre] at h
    | cons b bs =>
      simp only [isPre, Bool.and_eq_true] at h
      simpa using ih h.2

theorem replMatch_consumes {pat rep : Str} (hp : pat ≠ []) :
    Consumes (replMatch pat rep) := by
  intro s p h
  unfold replMatch at h
  by_cases hpre : isPre pat s = true
  · simp only [hpre, if_true, Option.some.injEq] at h
    have hlen : pat.length ≤ s.length := isPre_length hpre
    have hpos : 0 < pat.length := by
      cases pat with
      | nil => exact absurd rfl hp
      | cons a as => simp
    subst h
    simp only [List.length_drop]
    omega
  · simp [hpre] at h

theorem subAllG_congr (m : Str → Option (Str × Str)) (hm : Consumes m) :
    ∀ f₁ f₂ s, s.length ≤ f₁ → s.length ≤ f₂ → subAllG m f₁ s = subAllG m f₂ s := by
  intro f₁
  induction f₁ with
  | zero =>
    intro f₂ s h1 _
    have : s = [] := by
      cases s with
      | nil => rfl
      | cons c cs => simp at h1
    subst this
    cases f₂ <;> rfl
  | succ k ih =>
    intro f₂ s h1 h2
    cases s with
    | nil => cases f₂ <;> rfl
    | cons c cs =>
      cases f₂ with
      | zero => simp at h2
      | succ j =>
        simp only [List.length_cons] at h1 h2
        cases hmc : m (c :: cs) with
        | none =>
          simp only [subAllG, hmc]
          rw [ih j cs (by omega) (by omega)]
        | some p =>
          obtain ⟨r, rest⟩ := p
          have hlt := hm _ _ hmc
          simp only [List.length_cons] at hlt
          simp only [subAllG, hmc]
          rw [ih j rest (by omega) (by omega)]

theorem reSub_nil (m : Str → Option (Str × Str)) : reSub m [] = [] := rfl

theorem reSub_nomatch {m : Str → Option (Str × Str)} {c : Char} {cs : Str}
    (h : m (c :: cs) = none) : reSub m (c :: cs) = c :: reSub m cs := by
  simp [reSub, subAllG, h]

theorem reSub_match {m : Str → Option (Str × Str)} (hm : Consumes m)
    {s r rest : Str} (h : m s = some (r, rest)) :
    reSub m s = r ++ reSub m rest := by
  cases s with
  | nil =>
    have := hm _ _ h
    simp at this
  | cons c cs =>
    have hlt := hm _ _ h
    simp only [List.length_cons] at hlt
    simp only [reSub, List.length_cons, subAllG, h]
    rw [subAllG_congr m hm cs.length rest.length rest (by omega) (le_refl _)]

/-- Scanning past a prefix at whose positions the matcher never fires. -/
theorem reSub_skip (m : Str → Option (Str × Str)) :
    ∀ u t : Str, (∀ i < u.length, m (u.drop i ++ t) = none) →
    reSub m (u ++ t) = u ++ reSub m t := by
  intro u
  induction u with
  | nil => intro t _; simp
  | cons c u' ih =>
    intro t h
    have h0 : m (c :: (u' ++ t)) = none := by
      have := h 0 (by simp)
      simpa using this
    have hrec : ∀ i < u'.length, m (u'.drop i ++ t) = none := by
      intro i hi
      have := h (i + 1) (by simp; omega)
      simpa using this
    calc reSub m ((c :: u') ++ t) = reSub m (c :: (u' ++ t)) := by simp
    _ = c :: reSub m (u' ++ t) := reSub_nomatch h0
    _ = c :: (u' ++ reSub m t) := by rw [ih t hrec]
    _ = (c :: u') ++ reSub m t := by simp

/-! ## Helper lemmas for the general theorems -/

theorem isPre_append_self : ∀ u t : Str, isPre u (u ++ t) = true := by
  intro u t
  induction u with
  | nil => rfl
  | cons a as ih => simp [isPre, ih]

theorem replMatch_self (pat rep t : Str) : replMatch pat rep (pat ++ t) = some (rep, t) := by
  simp [replMatch, isPre_append_self, List.drop_left]

theorem replMatch_head_ne {a c : Char} {pat' rep : Str} {cs : Str} (h : (a == c) = false) :
    replMatch (a :: pat') rep (c :: cs) = none := by
  simp [replMatch, isPre, h]

theorem takeWhile_until_nl {m : Str} (hm : m.contains '\n' = false) (q : Str) :
    (m ++ '\n' :: q).takeWhile (fun c => !(c == '\n')) = m := by
  induction m with
  | nil => simp [List.takeWhile]
  | cons c m' ih =>
    simp only [List.contains_cons, Bool.or_eq_false_iff] at hm
    have hc : (c == '\n') = false := by
      cases hcn : c == '\n'
      · rfl
      · exact absurd (by simpa using (beq_iff_eq.mp hcn).symm ▸ rfl : ('\n' == c) = true)
          (by simp [hm.1])
    simp [List.takeWhile, hc, ih hm.2]

namespace GoOutput

theorem panicMatchAt_consumes : Consumes panicMatchAt := by
  intro s p h
  unfold panicMatchAt at h
  cases hc : (isPre panicLit s && (s.drop panicLit.length).contains '\n') with
  | false => rw [hc] at h; simp at h
  | true =>
    rw [hc] at h
    simp only [if_true, Option.some.injEq] at h
    subst h
    simp only [Bool.and_eq_true] at hc
    have := isPre_length hc.1
    simp only [panicLit] at this
    cases s with
    | nil => simp at this
    | cons a as => simp

theorem panicMatchAt_fires {m : Str} (hm : m.contains '\n' = false) (q : Str) :
    panicMatchAt (panicLit ++ m ++ '\n' :: q) = some (panicLit ++ m ++ ['\n'], []) := by
  unfold panicMatchAt
  rw [List.append_assoc, isPre_append_self, List.drop_left]
  have hnl : ((m ++ '\n' :: q).contains '\n') = true := by simp [List.elem_iff]
  rw [hnl]
  simp [takeWhile_until_nl hm]

end GoOutput

theorem replace_single (a : Char) (r : Str) : ∀ s : Str,
    strReplace s [a] r = s.flatMap (fun c => if c == a then r else [c]) := by
  intro s
  induction s with
  | nil => rfl
  | cons c cs ih =>
    simp only [strReplace] at ih ⊢
    by_cases h : c = a
    · subst h
      have hm : replMatch [c] r (c :: cs) = some (r, cs) := by
        simp [replMatch, isPre]
      rw [reSub_match (replMatch_consumes (by simp)) hm, ih]
      simp
    · have hm : replMatch [a] r (c :: cs) = none :=
        replMatch_head_ne (beq_eq_false_iff_ne.mpr (Ne.symm h))
      rw [reSub_nomatch hm, ih]
      simp [h]

theorem escape_flat : ∀ s : Str, escape_html s = s.flatMap escChar := by
  intro s
  unfold escape_html
  rw [replace_single '&' ampEnt, replace_single '<' ltEnt]
  induction s with
  | nil => rfl
  | cons c cs ih =>
    rw [List.flatMap_cons, List.flatMap_cons, List.flatMap_append, ih]
    congr 1
    by_cases h1 : c = '&'
    · subst h1; decide
    · by_cases h2 : c = '<'
      · subst h2; decide
      · simp [escChar, h1, h2]

theorem replace_head_notMem {a : Char} {pat' rep : Str} : ∀ t : Str, a ∉ t →
    strReplace t (a :: pat') rep = t := by
  intro t
  induction t with
  | nil => intro _; rfl
  | cons c cs ih =>
    intro h
    simp only [List.mem_cons, not_or] at h
    simp only [strReplace] at ih ⊢
    rw [reSub_nomatch (replMatch_head_ne (beq_eq_false_iff_ne.mpr h.1)), ih h.2]

theorem not_lt_mem_escChar : ∀ s : Str, '<' ∉ s.flatMap escChar := by
  intro s
  induction s with
  | nil => simp
  | cons c cs ih =>
    rw [List.flatMap_cons]
    simp only [List.mem_append, not_or]
    refine ⟨?_, ih⟩
    by_cases h1 : c = '&'
    · subst h1; decide
    · by_cases h2 : c = '<'
      · subst h2; decide
      · simp only [escChar, beq_eq_false_iff_ne.mpr h1, beq_eq_false_iff_ne.mpr h2,
          Bool.false_eq_true, if_false, List.mem_singleton]
        exact fun hh => h2 hh.symm

/-- The `<br>` pass of `unescape_html` cannot fire on escaped text: it
contains no `<` at all. -/
theorem pass_br (s : Str) : strReplace (s.flatMap escChar) brTag ['\n'] = s.flatMap escChar :=
  replace_head_notMem (s.flatMap escChar) (not_lt_mem_escChar s)

/-- The `&lt;` pass restores every `<`; afterwards only `&` is escaped. -/
theorem pass_lt : ∀ s : Str, strReplace (s.flatMap escChar) ltEnt ['<'] = s.flatMap escChar2 := by
  intro s
  induction s with
  | nil => rfl
  | cons c cs ih =>
    rw [List.flatMap_cons, List.flatMap_cons]
    simp only [strReplace] at ih ⊢
    by_cases h1 : c = '&'
    · subst h1
      have he : escChar '&' = ampEnt := by simp [escChar]
      have he2 : escChar2 '&' = ampEnt := by simp [escChar2]
      rw [he, he2]
      have hskip : ∀ i < ampEnt.length,
          replMatch ltEnt ['<'] (ampEnt.drop i ++ cs.flatMap escChar) = none := by
        intro i hi
        simp only [ampEnt, List.length_cons, List.length_nil] at hi
        interval_cases i <;> simp [ampEnt, ltEnt, replMatch, isPre]
      rw [reSub_skip _ ampEnt _ hskip, ih]
    · by_cases h2 : c = '<'
      · subst h2
        have he : escChar '<' = ltEnt := by simp [escChar]
        have he2 : escChar2 '<' = ['<'] := by simp [escChar2]
        rw [he, he2]
        rw [reSub_match (replMatch_consumes (by simp [ltEnt])) (replMatch_self ltEnt ['<'] _), ih]
      · have he : escChar c = [c] := by simp [escChar, h1, h2]
        have he2 : escChar2 c = [c] := by simp [escChar2, h1]
        have hm : replMatch ltEnt ['<'] (c :: cs.flatMap escChar) = none :=
          replMatch_head_ne (beq_eq_false_iff_ne.mpr (fun hh => h1 hh.symm))
        rw [he, he2, List.singleton_append, List.singleton_append, reSub_nomatch hm, ih]

/-- Passes whose pattern starts `&` followed by something other than `a`
cannot fire while only `&` is escaped (covers `&gt;` and `&nbsp;`). -/
theorem pass_amp_skip (d : Char) (pat' rep : Str) (hd : (d == 'a') = false) :
    ∀ s : Str, strReplace (s.flatMap escChar2) ('&' :: d :: pat') rep = s.flatMap escChar2 := by
  intro s
  induction s with
  | nil => rfl
  | cons c cs ih =>
    rw [List.flatMap_cons]
    simp only [strReplace] at ih ⊢
    by_cases h : c = '&'
    · subst h
      have he : escChar2 '&' = ampEnt := by simp [escChar2]
      rw [he]
      have hskip : ∀ i < ampEnt.length,
          replMatch ('&' :: d :: pat') rep (ampEnt.drop i ++ cs.flatMap escChar2) = none := by
        intro i hi
        simp only [ampEnt, List.length_cons, List.length_nil] at hi
        interval_cases i <;> simp [ampEnt, replMatch, isPre, hd]
      rw [reSub_skip _ ampEnt _ hskip, ih]
    · have he : escChar2 c = [c] := by simp [escChar2, h]
      have hm : replMatch ('&' :: d :: pat') rep (c :: cs.flatMap escChar2) = none :=
        replMatch_head_ne (beq_eq_false_iff_ne.mpr (fun hh => h hh.symm))
      rw [he, List.singleton_append, reSub_nomatch hm, ih]

theorem pass_gt (s : Str) : strReplace (s.flatMap escChar2) gtEnt ['>'] = s.flatMap escChar2 :=
  pass_amp_skip 'g' ['t', ';'] ['>'] (by decide) s

theorem pass_nbsp (s : Str) : strReplace (s.flatMap escChar2) nbspEnt [' '] = s.flatMap escChar2 :=
  pass_amp_skip 'n' ['b', 's', 'p', ';'] [' '] (by decide) s

/-- The `&amp;` pass restores every `&`, recovering the original text. -/
theorem pass_amp : ∀ s : Str, strReplace (s.flatMap escChar2) ampEnt ['&'] = s := by
  intro s
  induction s with
  | nil => rfl
  | cons c cs ih =>
    rw [List.flatMap_cons]
    simp only [strReplace] at ih ⊢
    by_cases h : c = '&'
    · subst h
      have he : escChar2 '&' = ampEnt := by simp [escChar2]
      rw [he, reSub_match (replMatch_consumes (by simp [ampEnt])) (replMatch_self ampEnt ['&'] _),
        ih]
      simp
    · have he : escChar2 c = [c] := by simp [escChar2, h]
      have hm : replMatch ampEnt ['&'] (c :: cs.flatMap escChar2) = none :=
        replMatch_head_ne (beq_eq_false_iff_ne.mpr (fun hh => h hh.symm))
      rw [he, List.singleton_append, reSub_nomatch hm, ih]

/-- A `str.replace` whose pattern does not occur in the string is the
identity. -/
theorem pass_notinfix (pat rep : Str) : ∀ s : Str, isSub pat s = false →
    strReplace s pat rep = s := by
  intro s
  induction s with
  | nil => intro _; rfl
  | cons c cs ih =>
    intro h
    simp only [isSub, Bool.or_eq_false_iff] at h
    simp only [strReplace] at ih ⊢
    have hm : replMatch pat rep (c :: cs) = none := by
      unfold replMatch
      rw [h.1]
      simp
    rw [reSub_nomatch hm, ih h.2]

/-! ## The claims -/

set_option maxRecDepth 8000 in
/-- C1 (counterexample): at verbosity 2, `PythonOutput.normalise` does NOT
return the traceback input unchanged — `normalise_location_info` removes
the `  File "<string>", line 1, in <module>` line at every verbosity. -/
theorem c1_traceback_verbosity_cex : PythonOutput.normalise tbInput 2 ≠ some tbInput := by
  decide

set_option maxRecDepth 8000 in
/-- C1 (amended): on the traceback input, `PythonOutput.normalise` returns
only the summary line at verbosity 0, the intro-plus-ellipsis form at
verbosity 1, and at verbosity 2 the input with the location-info line
removed (the location rule applies regardless of verbosity). -/
theorem c1_traceback_verbosity :
    PythonOutput.normalise tbInput 0 = some ("ZeroDivisionError: division by zero\n".toList) ∧
    PythonOutput.normalise tbInput 1 =
      some (("Traceback (most recent call last):\n  ...\n" ++
        "ZeroDivisionError: division by zero\n").toList) ∧
    PythonOutput.normalise tbInput 2 =
      some (("Traceback (most recent call last):\n" ++
        "    1 / 0\n    ~~^~~\nZeroDivisionError: division by zero\n").toList) := by
  exact ⟨by decide, by decide, by decide⟩

/-- C2: evaluating `normalise_memory_addresses` at the input
`"0xdead 0x100"` shows the two DISTINCT raw addresses `0xdead` and
`0x100` both ending up as `0x200`: replacing `0xdead` with the synthetic
`0x100` makes it collide with the raw `0x100`, whose later replacement
rewrites both.  The first-seen address also does not keep `0x100`. -/
theorem c2_memory_address_collision :
    PythonOutput.normalise_memory_addresses ("0xdead 0x100".toList) = "0x200 0x200".toList := by
  decide

/-- C3: normalising is NOT idempotent.  For `R = "0x10 0x1"` (any
verbosity; shown at 0), `normalise R = "0x20000 0x200"` — the replacement
of `0x1` also rewrites inside the synthetic `0x100` — and normalising the
result again gives the different string `"0x100 0x200"`. -/
theorem c3_normalise_not_idempotent :
    PythonOutput.normalise ("0x10 0x1".toList) 0 = some ("0x20000 0x200".toList) ∧
    PythonOutput.normalise ("0x20000 0x200".toList) 0 = some ("0x100 0x200".toList) ∧
    ("0x100 0x200".toList : Str) ≠ "0x20000 0x200".toList := by
  exact ⟨by decide, by decide, by decide⟩

/-- C4: the timed-output builder on chunks `(0.0, "hello\n")` and
`(1.0, "world\n")` yields exactly `"hello\n<~1s>\nworld\n"`: a `<~1s>`
marker line before the second chunk and none before the first. -/
theorem c4_gap_marker :
    Output.to_string [((0 : ℚ), "hello\n".toList), ((1 : ℚ), "world\n".toList)] =
      "hello\n<~1s>\nworld\n".toList := by
  decide

/-- C5: in plain check mode the run DOES write.  `cli.app` passes the mode
string `"check"` as `check_output`'s `interactive` parameter; the Python
truthiness test `if interactive:` is true for any non-empty string, so the
user is prompted and a REPLACE answer invokes `repository.fix_output`. -/
theorem c5_plain_check_mode_writes :
    check_snippets.check_output [qBad] "check" (fun _ => UserInput.REPLACE) =
      some (1, [WriteOp.fix_output 0]) := by
  decide

/-- C6: a run whose single failing question is fixed interactively still
returns 1: the summary is `failed = 1, fixed = 1, ignored = 0` (zero
remaining) and the write was performed, yet `check_output` returns 1
because it tests the whole `failed` list (and `cli.app` discards the
returned code altogether). -/
theorem c6_exit_code_nonzero_after_fix :
    check_snippets.checkLoop "interactive" (fun _ => UserInput.REPLACE) [qBad] 0 =
      some ([WriteOp.fix_output 0], 1, 1, 0) ∧
    check_snippets.check_output [qBad] "interactive" (fun _ => UserInput.REPLACE) =
      some (1, [WriteOp.fix_output 0]) := by
  exact ⟨by decide, by decide⟩

/-- C7: `Question.has_ok_output` returns `some true` exactly when the
freshly normalised raw output equals, character for character, the stored
`given_output`; the stored side enters the comparison unchanged (it is
never re-normalised). -/
theorem c7_has_ok_output_iff (q : Question) :
    q.has_ok_output = some true ↔
      q.language.normalise q.raw q.output_verbosity = some q.given_output := by
  unfold Question.has_ok_output
  cases h : q.language.normalise q.raw q.output_verbosity with
  | none => simp
  | some n => simp [beq_iff_eq]

/-- C8 (counterexample): on `"x panic: a\npanic: b\nc\n"` the only line
BEGINNING `panic: ` is `panic: b`, yet `GoOutput.normalise` truncates at
the earlier mid-line occurrence `panic: a` and the `panic: b` line is
gone from the output — refuting the claim that the line beginning
`panic: ` is kept. -/
theorem c8_go_panic_cex :
    GoOutput.normalise ("x panic: a\npanic: b\nc\n".toList) 0 = "x panic: a\n".toList ∧
    isSub ("panic: b".toList) ("x panic: a\n".toList) = false := by
  exact ⟨by decide, by decide⟩

/-- C8 (amended): `GoOutput.normalise` ignores its verbosity argument, and
the panic rule truncates at the FIRST occurrence of the substring
`panic: ` followed by a later newline — whether or not it begins a line:
if no earlier position of the text matches the panic pattern, everything
up to and including that occurrence's newline is kept and the rest is
removed. -/
theorem c8_go_panic_amended :
    (∀ (s : Str) (v₁ v₂ : ℤ), GoOutput.normalise s v₁ = GoOutput.normalise s v₂) ∧
    (∀ p m q : Str,
      (∀ i < p.length,
        GoOutput.panicMatchAt (p.drop i ++ (GoOutput.panicLit ++ (m ++ '\n' :: q))) = none) →
      m.contains '\n' = false →
      GoOutput.normalise_panic (p ++ (GoOutput.panicLit ++ (m ++ '\n' :: q))) =
        p ++ (GoOutput.panicLit ++ (m ++ ['\n']))) := by
  constructor
  · intro s v₁ v₂
    rfl
  · intro p m q hskip hm
    unfold GoOutput.normalise_panic
    rw [reSub_skip _ p _ hskip]
    have hfire := GoOutput.panicMatchAt_fires hm q
    rw [show GoOutput.panicLit ++ (m ++ '\n' :: q) = GoOutput.panicLit ++ m ++ '\n' :: q by simp]
    rw [reSub_match GoOutput.panicMatchAt_consumes hfire]
    simp [reSub_nil]

/-- C8 witness: the amended statement applied at a concrete Go output. -/
theorem c8_go_panic_amended_witness :
    GoOutput.normalise ("ok\n".toList) 0 = GoOutput.normalise ("ok\n".toList) 7 ∧
    GoOutput.normalise_panic
        ("go: run\n".toList ++ (GoOutput.panicLit ++ ("boom".toList ++ '\n' :: "goroutine 1 [running]:\nmain.main()\n".toList))) =
      "go: run\n".toList ++ (GoOutput.panicLit ++ ("boom".toList ++ ['\n'])) :=
  ⟨c8_go_panic_amended.1 _ 0 7, c8_go_panic_amended.2 _ _ _ (by decide) (by decide)⟩

/-- C9: the Node, Ruby and Rust normalisers are the identity at every
verbosity — their bodies are `return output` with a TODO. -/
theorem c9_identity_normalisers (s : Str) (v : ℤ) :
    NodeOutput.normalise s v = s ∧ RubyOutput.normalise s v = s ∧ RustOutput.normalise s v = s :=
  ⟨rfl, rfl, rfl⟩

/-- C10 (counterexample): the round-trip fails on `"&apos;"`: escaping
gives `"&amp;apos;"`, and unescaping replaces `&amp;` first, recreating
`&apos;`, which the later `&apos;` pass turns into `'`. -/
theorem c10_html_roundtrip_cex : unescape_html (escape_html aposEnt) ≠ aposEnt := by
  decide

/-- C10 (amended): `unescape_html` inverts `escape_html` on every string
that contains neither `&apos;` nor `&quot;` as a substring (the two
entity replacements that run after the `&amp;` pass; each yields a
counterexample otherwise). -/
theorem c10_html_roundtrip_amended (s : Str) (h1 : isSub aposEnt s = false)
    (h2 : isSub quotEnt s = false) : unescape_html (escape_html s) = s := by
  rw [escape_flat s]
  unfold unescape_html
  rw [pass_br s, pass_lt s, pass_gt s, pass_nbsp s, pass_amp s,
    pass_notinfix aposEnt [aposChar] s h1, pass_notinfix quotEnt ['"'] s h2]

/-- C10 witness: the amended round-trip at a concrete string containing
`&`, `<` and entity-like text. -/
theorem c10_html_roundtrip_amended_witness :
    isSub aposEnt ("a&b<c&lt;<br>&amp;&gt;".toList) = false ∧
    isSub quotEnt ("a&b<c&lt;<br>&amp;&gt;".toList) = false ∧
    unescape_html (escape_html ("a&b<c&lt;<br>&amp;&gt;".toList)) = "a&b<c&lt;<br>&amp;&gt;".toList :=
  ⟨by decide, by decide, c10_html_roundtrip_amended _ (by decide) (by decide)⟩
